import Mathlib

/-!
# Verification of the Niikaa article-authoring core

Shallow embedding of the repository's core logic:
* the lightweight markdown renderer (`components/MarkdownView`),
* the HTML export classifier (`App.tsx` `generateHtmlContent`),
* the streaming assembler (`App.tsx` `handleGenerate`),
* the image-set state (`App.tsx` image handlers, `currentImageUrl`),
* cursor-aware insertion (`App.tsx` `insertText`),
* the retry and image-count logic (`services/geminiService.ts`).

JavaScript strings are modelled through their character lists
(`String.data`); JS string helpers (`trim`, `split`, `startsWith`,
`includes`, `toLowerCase`, `substring`) are re-implemented below with
matching semantics on those lists.
-/

namespace Niikaa

/-! ## JS string primitive models -/

/-- Whitespace characters removed by the JS `trim()` (ASCII subset). -/
def isWS (c : Char) : Bool :=
  c == ' ' || c == '\t' || c == '\n' || c == '\r'

/-- Model of JS `trimEnd()` on character lists. -/
def trimRightL (l : List Char) : List Char :=
  (l.reverse.dropWhile isWS).reverse

/-- Model of JS `trim()` on character lists. -/
def trimL (l : List Char) : List Char :=
  trimRightL (l.dropWhile isWS)

/-- Model of JS `trim()`. -/
def jsTrim (s : String) : String := ⟨trimL s.data⟩

/-- Does `l` start with the pattern `p`? -/
def startsWithL : List Char → List Char → Bool
  | [], _ => true
  | _ :: _, [] => false
  | p :: ps, c :: cs => p == c && startsWithL ps cs

/-- Model of JS `s.startsWith(p)`. -/
def jsStartsWith (s p : String) : Bool := startsWithL p.data s.data

/-- Model of JS `split(sep)` for a one-character separator. -/
def splitCharL (sep : Char) : List Char → List (List Char)
  | [] => [[]]
  | c :: cs =>
    if c == sep then [] :: splitCharL sep cs
    else
      match splitCharL sep cs with
      | [] => [[c]]
      | h :: t => (c :: h) :: t

/-- Model of JS `s.split(sep)` for a one-character separator. -/
def jsSplitChar (sep : Char) (s : String) : List String :=
  (splitCharL sep s.data).map (fun l => ⟨l⟩)

/-- Does the pattern `needle` occur somewhere in `hay`? -/
def occursInL (needle : List Char) : List Char → Bool
  | [] => needle.isEmpty
  | c :: cs => startsWithL needle (c :: cs) || occursInL needle cs

/-- Model of JS `s.includes(sub)`. -/
def jsIncludes (s sub : String) : Bool := occursInL sub.data s.data

/-- Model of JS `s.toLowerCase()` (ASCII-relevant part). -/
def jsToLower (s : String) : String := ⟨s.data.map Char.toLower⟩

/-! ## Block model shared by preview and export

One structural unit derived from a line of the source text.  Inline
content is kept as the raw string handed to the inline stage, because
preview and export run their (identical) bold splitting on exactly
these strings. -/

inductive Block where
  | heading (level : Nat) (content : String)
  | para (content : String)
  | listBlock (items : List String)
  | image (alt url : String)
  | table (headers : List String) (rows : List (List String))
  deriving DecidableEq, Repr

/-- Cell parsing shared verbatim by `MarkdownView.renderTable` and
`generateHtmlContent.flushTable`:
`row.split('|').map(c => c.trim()).filter(c => c !== '')`. -/
def parseRow (row : String) : List String :=
  ((jsSplitChar '|' row).map jsTrim).filter (fun c => c ≠ "")

/-! ### The image pattern

Both renderers run `trimLine.match(/!\[(.*?)\]\((.*?)\)/)`.  The lazy
groups make the leftmost match take the shortest alt ending at the
first occurrence of the two characters right-bracket paren, and the
shortest url ending at the first closing paren after that. -/

/-- Split at the first occurrence of the two-character sequence `](`,
returning the part before it and the part after it. -/
def takeToRBParen : List Char → Option (List Char × List Char)
  | [] => none
  | ']' :: '(' :: rest => some ([], rest)
  | c :: rest =>
    match takeToRBParen rest with
    | some (a, b) => some (c :: a, b)
    | none => none

/-- Split at the first `)`, returning the part before it and after it. -/
def takeToRParen : List Char → Option (List Char × List Char)
  | [] => none
  | ')' :: rest => some ([], rest)
  | c :: rest =>
    match takeToRParen rest with
    | some (a, b) => some (c :: a, b)
    | none => none

/-- Try the image pattern anchored at the head of the character list. -/
def matchImageAt : List Char → Option (String × String)
  | '!' :: '[' :: rest =>
    match takeToRBParen rest with
    | some (alt, rest2) =>
      match takeToRParen rest2 with
      | some (url, _) => some (⟨alt⟩, ⟨url⟩)
      | none => none
    | none => none
  | _ => none

/-- Leftmost match of the image pattern anywhere in the list. -/
def findImageMatch : List Char → Option (String × String)
  | [] => none
  | c :: rest =>
    match matchImageAt (c :: rest) with
    | some r => some r
    | none => findImageMatch rest

/-- Model of `trimLine.match(/!\[(.*?)\]\((.*?)\)/)`, returning the two
captured groups (alt, url) when the pattern matches. -/
def imageMatch (s : String) : Option (String × String) :=
  findImageMatch s.data

/-- Model of JS `s.substring(a)` (one-argument form). -/
def jsSubstringFrom (s : String) (a : Nat) : String := ⟨s.data.drop a⟩

/-! ## The preview renderer (`components/MarkdownView.tsx`)

The React component walks the lines of `content` once, keeping a list
buffer and a table buffer; we model the emitted presentation nodes as
the `Block` sequence they render. -/

namespace MarkdownView

/-- The `flushList` helper: a non-empty list buffer is emitted as one `<ul>`. -/
def flushList (lbuf : List String) : List Block :=
  if lbuf.isEmpty then [] else [Block.listBlock lbuf]

/-- The `renderTable(rows)` helper: fewer than 2 rows produce `null`; otherwise
row 1 is the header, row 2 is discarded as the separator, the rest are
body rows, each parsed with `parseRow`; body rows with zero cells are
skipped. -/
def renderTable : List String → Option Block
  | [] => none
  | [_] => none
  | h :: _ :: body =>
    some (Block.table (parseRow h) ((body.map parseRow).filter (fun c => c ≠ [])))

/-- The `flushTable` helper: push the rendered table node when one is produced. -/
def flushTable (tbuf : List String) : List Block :=
  match renderTable tbuf with
  | some b => [b]
  | none => []

/-- The branch cascade from the `H1` check downward (headings, list
items, paragraph, blank). -/
def cascade (lbuf : List String) (line t : String) : List Block × List String :=
  if jsStartsWith line "# " then
    (flushList lbuf ++ [Block.heading 1 (jsSubstringFrom line 2)], [])
  else if jsStartsWith line "## " then
    (flushList lbuf ++ [Block.heading 2 (jsSubstringFrom line 3)], [])
  else if jsStartsWith line "### " then
    (flushList lbuf ++ [Block.heading 3 (jsSubstringFrom line 4)], [])
  else if jsStartsWith t "- " || jsStartsWith t "* " then
    ([], lbuf ++ [jsSubstringFrom t 2])
  else if t ≠ "" then
    (flushList lbuf ++ [Block.para line], [])
  else
    (flushList lbuf, [])

/-- Handling of one non-table line: the image branch flushes the list
buffer and, when the pattern fails to match, falls through to the
heading/paragraph cascade (with the list already flushed). -/
def lineStep (lbuf : List String) (line : String) : List Block × List String :=
  let t := jsTrim line
  if jsStartsWith t "![" then
    match imageMatch t with
    | some (alt, url) => (flushList lbuf ++ [Block.image alt url], [])
    | none =>
      match cascade [] line t with
      | (bs, lbuf2) => (flushList lbuf ++ bs, lbuf2)
  else cascade lbuf line t

/-- The per-line loop with its two buffers; on end of input any open
list and table buffers are flushed (in that order). -/
def go (lbuf tbuf : List String) : List String → List Block
  | [] => flushList lbuf ++ flushTable tbuf
  | line :: rest =>
    let t := jsTrim line
    if jsStartsWith t "|" then
      flushList lbuf ++ go [] (tbuf ++ [t]) rest
    else
      flushTable tbuf ++
        match lineStep lbuf line with
        | (bs, lbuf2) => bs ++ go lbuf2 [] rest

/-- The whole component: `if (!content) return null`, else parse the
lines of `content`. -/
def run (content : String) : List Block :=
  if content = "" then [] else go [] [] (jsSplitChar '\n' content)

end MarkdownView

/-! ## The HTML export classifier (`App.tsx` `generateHtmlContent`)

The exporter walks the same lines and emits HTML.  We model the block
semantics of its output: each `<h_>`, `<p>`, `<ul>`, `<table>` and
`<img>` it appends becomes one `Block` (the leading cover `<img>` and
the inline `<strong>` rewriting operate on exactly the strings stored
in these blocks and are outside the per-line classification). -/

namespace ExportHtml

/-- The `flushList` helper: closing a non-empty open `<ul>` yields one list block. -/
def flushList (lbuf : List String) : List Block :=
  if lbuf.isEmpty then [] else [Block.listBlock lbuf]

/-- The `flushTable` helper: a non-empty buffer always opens `<table>`; header and
body rows are only emitted when at least 2 rows accumulated, so a
single-row buffer leaves an empty table element. -/
def flushTable : List String → List Block
  | [] => []
  | [_] => [Block.table [] []]
  | h :: _ :: body =>
    [Block.table (parseRow h) ((body.map parseRow).filter (fun c => c ≠ []))]

/-- Handling of one non-table line.  Unlike the preview, a line that
starts with `![` but fails the image pattern emits nothing (the
`return` sits outside the match check), and a blank line takes no
branch at all, leaving any open `<ul>` open. -/
def lineStep (lbuf : List String) (line : String) : List Block × List String :=
  let t := jsTrim line
  if jsStartsWith t "![" then
    match imageMatch t with
    | some (alt, url) => (flushList lbuf ++ [Block.image alt url], [])
    | none => (flushList lbuf, [])
  else if jsStartsWith line "# " then
    (flushList lbuf ++ [Block.heading 1 (jsSubstringFrom line 2)], [])
  else if jsStartsWith line "## " then
    (flushList lbuf ++ [Block.heading 2 (jsSubstringFrom line 3)], [])
  else if jsStartsWith line "### " then
    (flushList lbuf ++ [Block.heading 3 (jsSubstringFrom line 4)], [])
  else if jsStartsWith t "- " || jsStartsWith t "* " then
    ([], lbuf ++ [jsSubstringFrom t 2])
  else if t.data.length > 0 then
    (flushList lbuf ++ [Block.para line], [])
  else
    ([], lbuf)

/-- The per-line loop; on end of input the open list and table are
flushed (in that order). -/
def go (lbuf tbuf : List String) : List String → List Block
  | [] => flushList lbuf ++ flushTable tbuf
  | line :: rest =>
    let t := jsTrim line
    if jsStartsWith t "|" then
      flushList lbuf ++ go [] (tbuf ++ [t]) rest
    else
      flushTable tbuf ++
        match lineStep lbuf line with
        | (bs, lbuf2) => bs ++ go lbuf2 [] rest

/-- Block semantics of the exported body for a given source text. -/
def generateHtmlContent (content : String) : List Block :=
  go [] [] (jsSplitChar '\n' content)

end ExportHtml

/-! ### Line classification predicates

Used to state for which source texts preview and export agree; they
read each line exactly the way the two renderers do. -/

/-- The line is a table row: its trimmed form starts with a pipe. -/
def isTableLineB (line : String) : Bool := jsStartsWith (jsTrim line) "|"

/-- The line is a list item: its trimmed form starts with a dash or
star marker. -/
def isItemLineB (line : String) : Bool :=
  jsStartsWith (jsTrim line) "- " || jsStartsWith (jsTrim line) "* "

/-- Every line that enters the image branch matches the image
pattern. -/
def imageLinesOk (lines : List String) : Bool :=
  lines.all fun l =>
    !(jsStartsWith (jsTrim l) "![") || (imageMatch (jsTrim l)).isSome

/-- No maximal run of consecutive table lines has length exactly 1;
`cnt` is the length of the table run in progress. -/
def tableRunsOk : List String → Nat → Bool
  | [], cnt => cnt != 1
  | l :: ls, cnt =>
    if isTableLineB l then tableRunsOk ls (cnt + 1)
    else (cnt != 1) && tableRunsOk ls 0

/-- No list item is separated from the previous list item only by
blank lines.  State `st`: 0 = no list open, 1 = the last relevant
line was a list item, 2 = a list item followed by one or more blank
lines. -/
def listRunsOk : List String → Nat → Bool
  | [], _ => true
  | l :: ls, st =>
    if jsTrim l = "" then listRunsOk ls (if st == 0 then 0 else 2)
    else if isItemLineB l then (st != 2) && listRunsOk ls 1
    else listRunsOk ls 0

/-- The first non-blank line, when there is one, is not a list item
(so a pending export list flushes before another item can join it). -/
def flushSafe : List String → Bool
  | [] => true
  | l :: ls => if jsTrim l = "" then flushSafe ls else !(isItemLineB l)

/-! ## The streaming assembler (`App.tsx` `handleGenerate`, lines 452-473)

`contentBuffer` accumulates every chunk; `setGeneratedContent` is only
called when more than `RENDER_THROTTLE_MS` elapsed since the last
update, and once more after the stream loop finishes normally.  A
fragment is a pair of its text and the value `Date.now()` takes when
it arrives. -/

def RENDER_THROTTLE_MS : Nat := 32

/-- The Document-side state of one generation session: the
accumulated buffer, the time of the last visible update, and the
visible Document text (`generatedContent`). -/
structure StreamState where
  contentBuffer : String
  lastUpdateTime : Nat
  generatedContent : String
  deriving DecidableEq, Repr

/-- The `handleGenerate` entry resets `generatedContent` to the empty string and
starts with `contentBuffer = ''`, `lastUpdateTime = 0`. -/
def initStream : StreamState := ⟨"", 0, ""⟩

/-- The `onChunk` callback: append to the buffer, flush to the visible
text only when the throttle interval has passed. -/
def onChunk (s : StreamState) (chunk : String) (now : Nat) : StreamState :=
  let buf := s.contentBuffer ++ chunk
  if now - s.lastUpdateTime > RENDER_THROTTLE_MS then
    ⟨buf, now, buf⟩
  else
    ⟨buf, s.lastUpdateTime, s.generatedContent⟩

/-- Deliver a fragment sequence (each with its arrival time) to the
session.  An erroring stream stops here: the statement after `await`
is not reached. -/
def runStream (s : StreamState) : List (String × Nat) → StreamState
  | [] => s
  | (c, t) :: rest => runStream (onChunk s c t) rest

/-- The post-loop `setGeneratedContent(contentBuffer)` (line 466),
executed only when the stream loop completes without throwing. -/
def finishStream (s : StreamState) : StreamState :=
  { s with generatedContent := s.contentBuffer }

/-- Concatenation of the delivered fragments, f1 ++ ... ++ fn. -/
def concatChunks : List (String × Nat) → String
  | [] => ""
  | c :: rest => c.1 ++ concatChunks rest

/-! ## The image set (`App.tsx` image state and handlers)

`generatedImageUrls : string[]` and `selectedImageIndex : number` are
two independent React state cells; the selected index is modelled as
an integer because nothing in the code constrains it to the list
bounds. -/

structure ImageState where
  generatedImageUrls : List String
  selectedImageIndex : Int
  deriving DecidableEq, Repr

/-- JS array indexing `urls[i]`: `undefined` (here `none`) outside the
bounds, including negative indices. -/
def jsIndex (l : List String) (i : Int) : Option String :=
  if h : 0 ≤ i ∧ i.toNat < l.length then some (l.get ⟨i.toNat, h.2⟩) else none

/-- Model of `const currentImageUrl = (generatedImageUrls &&
generatedImageUrls[selectedImageIndex]) || null;` — an array is always
truthy, an out-of-bounds read gives `undefined`, and `|| null` maps
every falsy value (`undefined` and the empty string) to `null`. -/
def currentImageUrl (s : ImageState) : Option String :=
  match jsIndex s.generatedImageUrls s.selectedImageIndex with
  | some u => if u = "" then none else some u
  | none => none

/-- The `handleGenerateImage` handler (and the image arm of `handleGenerate`):
clear the list, reset the selection to 0, then store the result list
unless it is empty. -/
def handleGenerateImage (urls : List String) (_s : ImageState) : ImageState :=
  if urls.isEmpty then ⟨[], 0⟩ else ⟨urls, 0⟩

/-- Opening a saved article (App.tsx lines 981 and 1520):
`setGeneratedImageUrls(article.imageUrl ? [article.imageUrl] : [])`,
with no write to `selectedImageIndex`. -/
def openArticle (imageUrl : Option String) (s : ImageState) : ImageState :=
  { s with
    generatedImageUrls :=
      match imageUrl with
      | some u => if u = "" then [] else [u]
      | none => [] }

/-- The thumbnail gallery click `setSelectedImageIndex(idx)`: a plain
state write with no range check. -/
def setSelectedImageIndex (i : Int) (s : ImageState) : ImageState :=
  { s with selectedImageIndex := i }

/-- The `handleEditImage` handler: bail out when no current image; on a successful
edit (`newUrl` non-null), copy the array and overwrite the slot at the
selected index. -/
def handleEditImage (newUrl : Option String) (s : ImageState) : ImageState :=
  if (currentImageUrl s).isSome then
    match newUrl with
    | some u =>
      { s with generatedImageUrls :=
          s.generatedImageUrls.set s.selectedImageIndex.toNat u }
    | none => s
  else s

/-- The selection invariant stated by the spec: a valid index whenever
the list is non-empty, and no selected image when it is empty. -/
def selectionInvariant (s : ImageState) : Prop :=
  (s.generatedImageUrls ≠ [] →
    0 ≤ s.selectedImageIndex ∧
      s.selectedImageIndex < (s.generatedImageUrls.length : Int)) ∧
  (s.generatedImageUrls = [] → currentImageUrl s = none)

instance (s : ImageState) : Decidable (selectionInvariant s) := by
  unfold selectionInvariant; infer_instance

/-! ## Cursor-aware insertion (`App.tsx` `insertText`, lines 623-638) -/

/-- Model of JS `s.substring(a, b)`: both arguments are clamped to the
string length and swapped when out of order. -/
def jsSubstring (s : String) (a b : Nat) : String :=
  let n := s.data.length
  let a' := min a n
  let b' := min b n
  ⟨(s.data.drop (min a' b')).take (max a' b' - min a' b')⟩

/-- Model of `insertText(before, after)` captured at selection
`[start, endPos]`: the new text and the new selection range set by
`setSelectionRange(start + before.length, end + before.length)`. -/
def insertText (text before after : String) (start endPos : Nat) :
    String × Nat × Nat :=
  (jsSubstring text 0 start ++ before ++ jsSubstring text start endPos ++
      after ++ jsSubstringFrom text endPos,
    start + before.data.length, endPos + before.data.length)

/-! ## The generation service (`services/geminiService.ts`) -/

/-- The fields of a caught error that `retryWithBackoff` inspects. -/
structure JsError where
  status : Option Nat
  code : Option Nat
  message : Option String
  deriving DecidableEq, Repr

/-- The overload check: status 503, code 503, or a message containing
the substring 503 or (lowercased) the word overloaded. -/
def isOverloaded (e : JsError) : Bool :=
  e.status == some 503 || e.code == some 503 ||
    (match e.message with
     | some m => jsIncludes m "503" || jsIncludes (jsToLower m) "overloaded"
     | none => false)

/-- Model of `retryWithBackoff(operation, retries, delay)`: run the operation;
on an overload error with retries left, sleep `delay`, then recurse
with one retry fewer and twice the delay; otherwise rethrow.  The
attempt counter
distinguishes the successive calls of the operation; the returned list
records the delays actually slept, in order. -/
def retryWithBackoff (op : Nat → Except JsError α) :
    Nat → Nat → Nat → Except JsError α × List Nat
  | retries, delay, attempt =>
    match op attempt, retries with
    | .ok v, _ => (.ok v, [])
    | .error e, 0 => (.error e, [])
    | .error e, r + 1 =>
      if isOverloaded e then
        let res := retryWithBackoff op r (delay * 2) (attempt + 1)
        (res.1, delay :: res.2)
      else (.error e, [])

/-- The call sites all use the default arguments `retries = 3`,
`delay = 1000`. -/
def retryWithBackoffTop (op : Nat → Except JsError α) :
    Except JsError α × List Nat :=
  retryWithBackoff op 3 1000 0

/-- Clamping in `generateImage`: `safeCount = Math.max(1, Math.min(count, 5))`. -/
def safeCount (count : Int) : Int := max 1 (min count 5)

/-- The parallel fan-out of `generateImage`: issue `safeCount`
single-image requests (request `k` resolving to `single k`) and keep
the non-null results, in order.  Returns (number of issued requests,
successful urls). -/
def generateImage (count : Int) (single : Nat → Option String) :
    Nat × List String :=
  ((safeCount count).toNat,
    (List.range (safeCount count).toNat).filterMap single)

/-! ## Helper lemmas about the string model -/

theorem strData_append (s t : String) : (s ++ t).data = s.data ++ t.data := rfl

theorem strAppend_empty (s : String) : s ++ "" = s := by
  apply String.ext
  simp [strData_append]

theorem strEmpty_append (s : String) : "" ++ s = s := by
  apply String.ext
  simp [strData_append]

theorem strAppend_assoc (a b c : String) : a ++ b ++ c = a ++ (b ++ c) := by
  apply String.ext
  simp [strData_append]

/-! ## C1: streaming assembly -/

theorem onChunk_contentBuffer (s : StreamState) (c : String) (t : Nat) :
    (onChunk s c t).contentBuffer = s.contentBuffer ++ c := by
  unfold onChunk
  split <;> rfl

theorem runStream_contentBuffer (chunks : List (String × Nat)) :
    ∀ s, (runStream s chunks).contentBuffer = s.contentBuffer ++ concatChunks chunks := by
  induction chunks with
  | nil => intro s; simp [runStream, concatChunks, strAppend_empty]
  | cons c rest ih =>
    intro s
    obtain ⟨cs, ct⟩ := c
    simp only [runStream, concatChunks, ih, onChunk_contentBuffer, strAppend_assoc]

theorem runStream_generatedContent (chunks : List (String × Nat)) :
    ∀ s, (runStream s chunks).generatedContent = s.generatedContent ∨
      ∃ k, (runStream s chunks).generatedContent =
        s.contentBuffer ++ concatChunks (chunks.take k) := by
  induction chunks with
  | nil => intro s; left; rfl
  | cons c rest ih =>
    intro s
    obtain ⟨cs, ct⟩ := c
    have hrun : runStream s ((cs, ct) :: rest) = runStream (onChunk s cs ct) rest := rfl
    rcases ih (onChunk s cs ct) with h | ⟨k, hk⟩
    · rw [hrun, h]
      unfold onChunk
      split
      · right
        refine ⟨1, ?_⟩
        simp [concatChunks, strAppend_empty]
      · left; rfl
    · right
      refine ⟨k + 1, ?_⟩
      rw [hrun, hk, onChunk_contentBuffer]
      simp [concatChunks, strAppend_assoc]

/-- C1 (amended): every fragment is appended to the accumulated buffer
immediately; when the stream loop completes successfully the final
`setGeneratedContent(contentBuffer)` makes the Document text exactly
the concatenation of all fragments, regardless of arrival times and
the 32 ms throttle; but when the stream terminates with an error that
final assignment is skipped, and the Document text is only the
concatenation of some prefix of the fragments (the last throttled
flush). -/
theorem c1_streaming :
    (∀ chunks, (runStream initStream chunks).contentBuffer = concatChunks chunks) ∧
    (∀ chunks, (finishStream (runStream initStream chunks)).generatedContent =
      concatChunks chunks) ∧
    (∀ chunks, ∃ k, (runStream initStream chunks).generatedContent =
      concatChunks (chunks.take k)) := by
  refine ⟨?_, ?_, ?_⟩
  · intro chunks
    rw [runStream_contentBuffer]
    exact strEmpty_append _
  · intro chunks
    show (runStream initStream chunks).contentBuffer = _
    rw [runStream_contentBuffer]
    exact strEmpty_append _
  · intro chunks
    rcases runStream_generatedContent chunks initStream with h | ⟨k, hk⟩
    · exact ⟨0, by simpa [initStream, concatChunks] using h⟩
    · exact ⟨k, by simpa [initStream, strEmpty_append] using hk⟩

/-- C1 counterexample: a stream that delivers fragments a (at 100 ms)
and b (at 110 ms, inside the throttle window) and then terminates with
an error leaves the visible Document text at a, not at the full
concatenation ab — the forced final flush only runs on success. -/
theorem c1_counterexample :
    (runStream initStream [("a", 100), ("b", 110)]).generatedContent ≠
      concatChunks [("a", 100), ("b", 110)] := by
  decide

/-! ## C3: the selection invariant -/

theorem currentImageUrl_nil (i : Int) :
    currentImageUrl ⟨[], i⟩ = none := by
  simp [currentImageUrl, jsIndex]

/-- C3 counterexample: generate two images, select the second
thumbnail (both successful), then open a saved article that has one
cover image — the restore writes the image list without resetting
`selectedImageIndex`, leaving selection index 1 against a 1-element
list, violating the invariant. -/
theorem c3_counterexample :
    ¬ selectionInvariant
        (openArticle (some "w")
          (setSelectedImageIndex 1
            (handleGenerateImage ["u", "v"] ⟨[], 0⟩))) := by
  decide

/-- C3 (amended): bulk generation and valid thumbnail selection
establish the invariant and single-slot replacement preserves it, but
restoring a saved article's images does not reset the selection and
can leave `selectedImageIndex` out of range of the new list; when the
list is empty the selected-image read is null. -/
theorem c3_invariant :
    (∀ urls s, selectionInvariant (handleGenerateImage urls s)) ∧
    (∀ (i : Int) (s : ImageState), 0 ≤ i →
      i < (s.generatedImageUrls.length : Int) →
      selectionInvariant (setSelectedImageIndex i s)) ∧
    (∀ newUrl s, selectionInvariant s →
      selectionInvariant (handleEditImage newUrl s)) := by
  refine ⟨?_, ?_, ?_⟩
  · intro urls s
    unfold handleGenerateImage
    split
    case isTrue h => exact ⟨fun hne => absurd rfl hne, fun _ => currentImageUrl_nil 0⟩
    case isFalse h =>
      have hne : urls ≠ [] := by
        intro hcon
        rw [hcon] at h
        exact h rfl
      refine ⟨fun _ => ⟨by norm_num, ?_⟩, fun he => absurd he hne⟩
      show (0 : Int) < (urls.length : Int)
      have : 0 < urls.length := List.length_pos.mpr hne
      exact_mod_cast this
  · intro i s h0 hlen
    refine ⟨fun _ => ⟨h0, hlen⟩, fun he => ?_⟩
    have he' : s.generatedImageUrls = [] := he
    show currentImageUrl ⟨s.generatedImageUrls, i⟩ = none
    rw [he']
    exact currentImageUrl_nil i
  · intro newUrl s hs
    unfold handleEditImage
    split
    case isFalse h => exact hs
    case isTrue h =>
      match newUrl with
      | none => exact hs
      | some u =>
        refine ⟨fun hne => ?_, fun he => ?_⟩
        · have hlen : (s.generatedImageUrls.set s.selectedImageIndex.toNat u).length
              = s.generatedImageUrls.length := List.length_set ..
          have hne' : s.generatedImageUrls ≠ [] := by
            intro hcon
            apply hne
            show s.generatedImageUrls.set s.selectedImageIndex.toNat u = []
            rw [hcon]
            rfl
          rcases hs.1 hne' with ⟨ha, hb⟩
          refine ⟨ha, ?_⟩
          show s.selectedImageIndex <
            ((s.generatedImageUrls.set s.selectedImageIndex.toNat u).length : Int)
          rw [hlen]
          exact hb
        · have he' : s.generatedImageUrls.set s.selectedImageIndex.toNat u = [] := he
          show currentImageUrl
            ⟨s.generatedImageUrls.set s.selectedImageIndex.toNat u, s.selectedImageIndex⟩ = none
          rw [he']
          exact currentImageUrl_nil _

/-- C3 witness. -/
theorem c3_invariant_witness :
    selectionInvariant (handleGenerateImage ["u", "v"] ⟨[], 0⟩) ∧
    (0 : Int) ≤ 1 ∧ (1 : Int) < (([ "u", "v" ] : List String).length : Int) ∧
    selectionInvariant (setSelectedImageIndex 1 ⟨["u", "v"], 0⟩) ∧
    selectionInvariant ⟨["u", "v"], 1⟩ ∧
    selectionInvariant (handleEditImage (some "w") ⟨["u", "v"], 1⟩) :=
  ⟨c3_invariant.1 ["u", "v"] ⟨[], 0⟩, by decide, by decide,
    c3_invariant.2.1 1 ⟨["u", "v"], 0⟩ (by decide) (by decide),
    by decide,
    c3_invariant.2.2 (some "w") ⟨["u", "v"], 1⟩ (by decide)⟩

/-! ## C4: thumbnail selection -/

/-- C4 counterexample: with a 1-element image list, `select(1)` and
`select(-1)` do not fail and do not leave the state unchanged — the
gallery click handler is a bare state write with no range check, so
the out-of-range index is stored. -/
theorem c4_counterexample :
    setSelectedImageIndex 1 ⟨["u"], 0⟩ ≠ ⟨["u"], 0⟩ ∧
    setSelectedImageIndex (-1) ⟨["u"], 0⟩ ≠ ⟨["u"], 0⟩ := by
  decide

/-- C4 (amended): `select(i)` always succeeds: it stores exactly `i`
(so for valid `i` in a list of length 1 ≤ k ≤ 5 reading back yields
`i` and the image list is untouched), and no OutOfRange condition
exists — an out-of-range `select` also just stores the index. -/
theorem c4_select :
    (∀ (urls : List String) (j : Int) (i : Nat),
      1 ≤ urls.length → urls.length ≤ 5 → i < urls.length →
      (setSelectedImageIndex i ⟨urls, j⟩).selectedImageIndex = i ∧
      (setSelectedImageIndex i ⟨urls, j⟩).generatedImageUrls = urls) ∧
    (∀ (s : ImageState) (i : Int),
      (setSelectedImageIndex i s).selectedImageIndex = i ∧
      (setSelectedImageIndex i s).generatedImageUrls = s.generatedImageUrls) := by
  exact ⟨fun urls j i _ _ _ => ⟨rfl, rfl⟩, fun s i => ⟨rfl, rfl⟩⟩

/-- C4 witness. -/
theorem c4_select_witness :
    1 ≤ (["u", "v", "w"] : List String).length ∧
    (["u", "v", "w"] : List String).length ≤ 5 ∧ 2 < (["u", "v", "w"] : List String).length ∧
    (setSelectedImageIndex 2 ⟨["u", "v", "w"], 0⟩).selectedImageIndex = 2 ∧
    (setSelectedImageIndex 2 ⟨["u", "v", "w"], 0⟩).generatedImageUrls = ["u", "v", "w"] :=
  ⟨by decide, by decide, by decide,
    (c4_select.1 ["u", "v", "w"] 0 2 (by decide) (by decide) (by decide)).1,
    (c4_select.1 ["u", "v", "w"] 0 2 (by decide) (by decide) (by decide)).2⟩

/-! ## C6: cursor-aware insertion -/

/-- C6 (confirmed): `insertText` is the pure splice demanded by the
spec.  On a selection `[start, endPos]` within the text, the result is
text-before-start ++ before ++ selected-span ++ after ++
text-after-end and the new selection is the original span shifted by
the length of `before`; no existing character is dropped (the length
is exactly the sum of the three parts), and the concrete example from
the spec holds. -/
theorem c6_insertText (text before after : String) (start endPos : Nat)
    (h1 : start ≤ endPos) (h2 : endPos ≤ text.data.length) :
    insertText text before after start endPos =
      (⟨text.data.take start ++ before.data ++
          ((text.data.drop start).take (endPos - start)) ++ after.data ++
          text.data.drop endPos⟩,
        start + before.data.length, endPos + before.data.length) ∧
    (insertText text before after start endPos).1.data.length =
      text.data.length + before.data.length + after.data.length ∧
    insertText "Hello world" "**" "**" 0 5 = ("**Hello** world", 2, 7) := by
  have hs : start ≤ text.data.length := le_trans h1 h2
  have heq : insertText text before after start endPos =
      (⟨text.data.take start ++ before.data ++
          ((text.data.drop start).take (endPos - start)) ++ after.data ++
          text.data.drop endPos⟩,
        start + before.data.length, endPos + before.data.length) := by
    unfold insertText jsSubstring jsSubstringFrom
    refine Prod.ext ?_ rfl
    apply String.ext
    simp only [strData_append]
    have e1 : min (min 0 text.data.length) (min start text.data.length) = 0 := by omega
    have e2 : max (min 0 text.data.length) (min start text.data.length) = start := by omega
    have e3 : min (min start text.data.length) (min endPos text.data.length) = start := by
      omega
    have e4 : max (min start text.data.length) (min endPos text.data.length) = endPos := by
      omega
    simp only [e1, e2, e3, e4, Nat.sub_zero, List.drop_zero, List.append_assoc]
  refine ⟨heq, ?_, by decide⟩
  rw [heq]
  simp only [List.length_append, List.length_take, List.length_drop]
  omega

/-- C6 witness. -/
theorem c6_insertText_witness :
    0 ≤ 5 ∧ 5 ≤ ("Hello world" : String).data.length ∧
    insertText "Hello world" "**" "**" 0 5 = ("**Hello** world", 2, 7) :=
  ⟨by decide, by decide,
    (c6_insertText "Hello world" "**" "**" 0 5 (by decide) (by decide)).2.2⟩

/-! ## C7: retry with exponential backoff -/

/-- C7 (confirmed): with the default arguments (3 retries, 1000 ms),
an operation that keeps failing with an overload error is attempted 4
times with sleeps of exactly 1000, 2000 and 4000 ms before the error
propagates; a non-overload error at any attempt propagates at once
with no sleep; a success propagates at once. -/
theorem c7_retryWithBackoff :
    (∀ (op : Nat → Except JsError Unit) (e : JsError), isOverloaded e = true →
      (∀ k, op k = .error e) →
      retryWithBackoffTop op = (.error e, [1000, 2000, 4000])) ∧
    (∀ (op : Nat → Except JsError Unit) (e : JsError) (retries delay attempt : Nat),
      isOverloaded e = false → op attempt = .error e →
      retryWithBackoff op retries delay attempt = (.error e, [])) ∧
    (∀ (op : Nat → Except JsError Unit) (v : Unit), op 0 = .ok v →
      retryWithBackoffTop op = (.ok v, [])) := by
  refine ⟨?_, ?_, ?_⟩
  · intro op e hov hop
    simp [retryWithBackoffTop, retryWithBackoff, hop, hov]
  · intro op e retries delay attempt hov hop
    cases retries <;> simp [retryWithBackoff, hop, hov]
  · intro op v hop
    simp [retryWithBackoffTop, retryWithBackoff, hop]

/-- C7 witness. -/
theorem c7_retryWithBackoff_witness :
    isOverloaded ⟨some 503, none, none⟩ = true ∧
    retryWithBackoffTop (fun _ => (.error ⟨some 503, none, none⟩ : Except JsError Unit)) =
      (.error ⟨some 503, none, none⟩, [1000, 2000, 4000]) ∧
    isOverloaded ⟨none, none, some "quota exceeded"⟩ = false ∧
    retryWithBackoff (fun _ => (.error ⟨none, none, some "quota exceeded"⟩ :
        Except JsError Unit)) 3 1000 0 =
      (.error ⟨none, none, some "quota exceeded"⟩, []) :=
  ⟨by decide,
    c7_retryWithBackoff.1 _ _ (by decide) (fun _ => rfl),
    by decide,
    c7_retryWithBackoff.2.1 _ _ 3 1000 0 (by decide) rfl⟩

/-! ## C8: single-slot image replacement -/

theorem currentImageUrl_isSome_bounds (s : ImageState)
    (h : (currentImageUrl s).isSome = true) :
    0 ≤ s.selectedImageIndex ∧
      s.selectedImageIndex.toNat < s.generatedImageUrls.length := by
  by_contra hcon
  unfold currentImageUrl jsIndex at h
  rw [dif_neg hcon] at h
  simp at h

/-- C8 (confirmed): a successful edit of the currently selected image
replaces exactly the selected slot: the list length and the selection
index are unchanged, the new image sits at the selected position, and
every other position is untouched. -/
theorem c8_handleEditImage (s : ImageState) (u : String)
    (hc : (currentImageUrl s).isSome = true) :
    (handleEditImage (some u) s).selectedImageIndex = s.selectedImageIndex ∧
    (handleEditImage (some u) s).generatedImageUrls.length =
      s.generatedImageUrls.length ∧
    (handleEditImage (some u) s).generatedImageUrls[s.selectedImageIndex.toNat]? =
      some u ∧
    ∀ j : Nat, j ≠ s.selectedImageIndex.toNat →
      (handleEditImage (some u) s).generatedImageUrls[j]? =
        s.generatedImageUrls[j]? := by
  have hb := currentImageUrl_isSome_bounds s hc
  unfold handleEditImage
  rw [if_pos hc]
  refine ⟨rfl, List.length_set .., ?_, ?_⟩
  · show (s.generatedImageUrls.set s.selectedImageIndex.toNat u)[s.selectedImageIndex.toNat]?
      = some u
    exact List.getElem?_set_eq_of_lt u hb.2
  · intro j hj
    show (s.generatedImageUrls.set s.selectedImageIndex.toNat u)[j]?
      = s.generatedImageUrls[j]?
    exact List.getElem?_set_ne (fun hx => hj hx.symm)

/-- C8 witness. -/
theorem c8_handleEditImage_witness :
    (currentImageUrl ⟨["a", "b", "c"], 1⟩).isSome = true ∧
    (handleEditImage (some "z") ⟨["a", "b", "c"], 1⟩).selectedImageIndex = 1 ∧
    (handleEditImage (some "z") ⟨["a", "b", "c"], 1⟩).generatedImageUrls[0]? = some "a" :=
  ⟨by decide,
    (c8_handleEditImage ⟨["a", "b", "c"], 1⟩ "z" (by decide)).1,
    (c8_handleEditImage ⟨["a", "b", "c"], 1⟩ "z" (by decide)).2.2.2 0 (by decide)⟩

/-! ## C9: image count clamping -/

/-- C9 (confirmed): `generateImage` issues exactly
`max(1, min(count, 5))` single-image requests — 5 for a request of 7,
1 for a request of 0, and the request count itself when it already
lies in [1,5] — and returns exactly the successful results among
them, in order, so between 0 and the clamped count urls. -/
theorem c9_generateImage :
    (∀ (count : Int) (single : Nat → Option String),
      (generateImage count single).1 = (max 1 (min count 5)).toNat ∧
      1 ≤ (generateImage count single).1 ∧ (generateImage count single).1 ≤ 5 ∧
      (1 ≤ count → count ≤ 5 → ((generateImage count single).1 : Int) = count) ∧
      (generateImage count single).2 =
        (List.range (generateImage count single).1).filterMap single ∧
      (generateImage count single).2.length ≤ (generateImage count single).1 ∧
      ((∀ k, (single k).isSome) →
        (generateImage count single).2.length = (generateImage count single).1)) ∧
    (∀ single, (generateImage 7 single).1 = 5) ∧
    (∀ single, (generateImage 0 single).1 = 1) := by
  refine ⟨?_, fun single => rfl, fun single => rfl⟩
  intro count single
  refine ⟨rfl, ?_, ?_, ?_, rfl, ?_, ?_⟩
  · show 1 ≤ (safeCount count).toNat
    unfold safeCount
    omega
  · show (safeCount count).toNat ≤ 5
    unfold safeCount
    omega
  · intro hc1 hc5
    show ((safeCount count).toNat : Int) = count
    unfold safeCount
    omega
  · calc ((List.range (generateImage count single).1).filterMap single).length
        ≤ (List.range (generateImage count single).1).length :=
          List.length_filterMap_le ..
      _ = (generateImage count single).1 := List.length_range ..
  · intro hall
    show ((List.range (safeCount count).toNat).filterMap single).length = _
    have hgen : ∀ l : List Nat, (l.filterMap single).length = l.length := by
      intro l
      induction l with
      | nil => rfl
      | cons a t ih =>
        cases hfa : single a with
        | none => exact absurd (hall a) (by simp [hfa])
        | some b => simp [List.filterMap_cons, hfa, ih]
    rw [hgen]
    exact List.length_range ..

/-- C9 witness. -/
theorem c9_generateImage_witness :
    (1 : Int) ≤ 3 ∧ (3 : Int) ≤ 5 ∧
    ((generateImage 3 (fun k => some (toString k))).1 : Int) = 3 ∧
    (generateImage 7 (fun _ => (none : Option String))).1 = 5 :=
  ⟨by decide, by decide,
    ((c9_generateImage.1 3 (fun k => some (toString k))).2.2.2.1 (by decide) (by decide)),
    c9_generateImage.2.1 _⟩

/-! ## C10: the null-guarded selected-image read -/

/-- C10 counterexample: an image list holding the empty string has an
image at index 0, yet the read yields null — the JS expression
`(urls[i] || null)` coerces the falsy empty string to null, so the
read does not return the stored image. -/
theorem c10_counterexample :
    jsIndex [""] 0 = some "" ∧ currentImageUrl ⟨[""], 0⟩ = none := by
  decide

/-- C10 (amended): the selected-image read is total for every list
and every integer index: it yields the stored image whenever the index
is in range and the stored string is non-empty, and null otherwise —
in particular for an empty list, a negative index, an index past the
end, and (the one divergence from the claim) an empty-string image.
Every consumer therefore receives either an image actually stored in
the list or null. -/
theorem c10_currentImageUrl (urls : List String) (idx : Int) :
    (∀ u, jsIndex urls idx = some u → u ≠ "" →
      currentImageUrl ⟨urls, idx⟩ = some u) ∧
    ((idx < 0 ∨ (urls.length : Int) ≤ idx) → currentImageUrl ⟨urls, idx⟩ = none) ∧
    (jsIndex urls idx = some "" → currentImageUrl ⟨urls, idx⟩ = none) ∧
    (currentImageUrl ⟨urls, idx⟩ = none ∨
      ∃ u, currentImageUrl ⟨urls, idx⟩ = some u ∧
        jsIndex urls idx = some u ∧ u ≠ "") := by
  refine ⟨?_, ?_, ?_, ?_⟩
  · intro u hu hne
    unfold currentImageUrl
    rw [show (⟨urls, idx⟩ : ImageState).generatedImageUrls = urls from rfl]
    rw [show (⟨urls, idx⟩ : ImageState).selectedImageIndex = idx from rfl]
    rw [hu]
    simp [hne]
  · intro hout
    have hnone : jsIndex urls idx = none := by
      unfold jsIndex
      rw [dif_neg]
      intro ⟨ha, hb⟩
      omega
    unfold currentImageUrl
    rw [show (⟨urls, idx⟩ : ImageState).generatedImageUrls = urls from rfl]
    rw [show (⟨urls, idx⟩ : ImageState).selectedImageIndex = idx from rfl]
    rw [hnone]
  · intro hu
    unfold currentImageUrl
    rw [show (⟨urls, idx⟩ : ImageState).generatedImageUrls = urls from rfl]
    rw [show (⟨urls, idx⟩ : ImageState).selectedImageIndex = idx from rfl]
    rw [hu]
    rfl
  · cases hj : jsIndex urls idx with
    | none =>
      left
      unfold currentImageUrl
      rw [show (⟨urls, idx⟩ : ImageState).generatedImageUrls = urls from rfl]
      rw [show (⟨urls, idx⟩ : ImageState).selectedImageIndex = idx from rfl]
      rw [hj]
    | some u =>
      by_cases he : u = ""
      · left
        unfold currentImageUrl
        rw [show (⟨urls, idx⟩ : ImageState).generatedImageUrls = urls from rfl]
        rw [show (⟨urls, idx⟩ : ImageState).selectedImageIndex = idx from rfl]
        rw [hj]
        simp [he]
      · right
        refine ⟨u, ?_, rfl, he⟩
        unfold currentImageUrl
        rw [show (⟨urls, idx⟩ : ImageState).generatedImageUrls = urls from rfl]
        rw [show (⟨urls, idx⟩ : ImageState).selectedImageIndex = idx from rfl]
        rw [hj]
        simp [he]

/-! ## C5: table accumulation and flushing in the preview renderer -/

/-- C5 (confirmed): lines whose trimmed form starts with a pipe
accumulate into the pending table buffer (flushing any open list
first); the buffer is flushed at the first non-table line and at end
of input; a flush of fewer than 2 rows emits nothing, while with at
least 2 rows the first row gives the headers, the second is discarded
as the separator, the remaining rows are the body (cells split on the
pipe, trimmed, empties dropped; zero-cell rows skipped); and the
spec's concrete example parses to exactly one table block. -/
theorem c5_tableParsing :
    (∀ (lbuf tbuf : List String) (line : String) (rest : List String),
      jsStartsWith (jsTrim line) "|" = true →
      MarkdownView.go lbuf tbuf (line :: rest) =
        MarkdownView.flushList lbuf ++
          MarkdownView.go [] (tbuf ++ [jsTrim line]) rest) ∧
    (∀ (tbuf : List String) (line : String) (rest : List String),
      jsStartsWith (jsTrim line) "|" = false →
      MarkdownView.go [] tbuf (line :: rest) =
        MarkdownView.flushTable tbuf ++ MarkdownView.go [] [] (line :: rest)) ∧
    (∀ tbuf, MarkdownView.go [] tbuf [] = MarkdownView.flushTable tbuf) ∧
    (MarkdownView.flushTable [] = [] ∧ ∀ t, MarkdownView.flushTable [t] = []) ∧
    (∀ h sep body, MarkdownView.flushTable (h :: sep :: body) =
      [Block.table (parseRow h) ((body.map parseRow).filter (fun c => c ≠ []))]) ∧
    MarkdownView.run "| A | B |\n|---|---|\n| 1 | 2 |" =
      [Block.table ["A", "B"] [["1", "2"]]] := by
  refine ⟨?_, ?_, ?_, ⟨rfl, fun t => rfl⟩, fun h sep body => rfl, by decide⟩
  · intro lbuf tbuf line rest h
    simp only [MarkdownView.go, h, if_true]
  · intro tbuf line rest h
    simp only [MarkdownView.go, h, if_false, Bool.false_eq_true]
    simp [MarkdownView.flushTable, MarkdownView.flushList, MarkdownView.renderTable]
  · intro tbuf
    simp [MarkdownView.go, MarkdownView.flushList]

/-- C5 witness. -/
theorem c5_tableParsing_witness :
    jsStartsWith (jsTrim " | A | B |") "|" = true ∧
    MarkdownView.go [] [] [" | A | B |"] =
      MarkdownView.flushList [] ++ MarkdownView.go [] [jsTrim " | A | B |"] [] :=
  ⟨by decide, c5_tableParsing.1 [] [] " | A | B |" [] (by decide)⟩

/-! ## C2: preview / export parity

Helper lemmas about the character-level primitives, then the
equivalence of the two line classifiers under the side conditions
above, then the counterexample showing the side conditions are
necessary. -/

theorem strEq_empty_iff (s : String) : s = "" ↔ s.data = [] :=
  ⟨fun h => h ▸ rfl, fun h => String.ext h⟩

theorem startsWithL_elim {p : Char} {ps l : List Char}
    (h : startsWithL (p :: ps) l = true) :
    ∃ tl, l = p :: tl ∧ startsWithL ps tl = true := by
  match l with
  | [] => exact absurd h (by simp [startsWithL])
  | c :: cs =>
    have h' := h
    simp only [startsWithL, Bool.and_eq_true, beq_iff_eq] at h'
    exact ⟨cs, by rw [h'.1], h'.2⟩

theorem startsWithL_one_elim {p : Char} {l : List Char}
    (h : startsWithL [p] l = true) : ∃ tl, l = p :: tl := by
  obtain ⟨tl, htl, _⟩ := startsWithL_elim h
  exact ⟨tl, htl⟩

theorem startsWithL_head_ne {p c : Char} (ps cs : List Char) (hne : p ≠ c) :
    startsWithL (p :: ps) (c :: cs) = false := by
  simp [startsWithL, hne]

theorem dropWhile_ws_append {c : Char} (hc : isWS c = false) :
    ∀ l : List Char, (l ++ [c]).dropWhile isWS = l.dropWhile isWS ++ [c] := by
  intro l
  induction l with
  | nil => simp [List.dropWhile, hc]
  | cons a t ih =>
    by_cases ha : isWS a = true
    · simp only [List.cons_append, List.dropWhile_cons, ha, if_true, ih]
    · have ha' : isWS a = false := by simpa using ha
      simp [List.dropWhile_cons, ha']

theorem trimRightL_cons {c : Char} (hc : isWS c = false) (cs : List Char) :
    trimRightL (c :: cs) = c :: trimRightL cs := by
  unfold trimRightL
  rw [List.reverse_cons, dropWhile_ws_append hc, List.reverse_append]
  rfl

theorem trimL_cons {c : Char} (hc : isWS c = false) (cs : List Char) :
    trimL (c :: cs) = c :: trimRightL cs := by
  unfold trimL
  rw [List.dropWhile_cons, if_neg (by simp [hc])]
  exact trimRightL_cons hc cs

theorem jsTrim_of_head {line : String} {c : Char} {cs : List Char}
    (h : line.data = c :: cs) (hc : isWS c = false) :
    (jsTrim line).data = c :: trimRightL cs := by
  show trimL line.data = _
  rw [h, trimL_cons hc]

theorem trim_ne_empty_of_head {line : String} {c : Char} {tl : List Char}
    (h : (jsTrim line).data = c :: tl) : ¬ jsTrim line = "" := by
  intro hcon
  rw [strEq_empty_iff, h] at hcon
  exact List.noConfusion hcon

theorem item_false_of_head {line : String} {c : Char} {tl : List Char}
    (h : (jsTrim line).data = c :: tl) (h1 : c ≠ '-') (h2 : c ≠ '*') :
    isItemLineB line = false := by
  unfold isItemLineB jsStartsWith
  rw [h]
  rw [startsWithL_head_ne _ _ (fun hx => h1 hx.symm),
    startsWithL_head_ne _ _ (fun hx => h2 hx.symm)]
  rfl

theorem startsWith_false_of_blank {line : String} (hb : jsTrim line = "")
    {c : Char} (ps : List Char) (hc : isWS c = false) :
    startsWithL (c :: ps) line.data = false := by
  by_contra hx
  have hx' : startsWithL (c :: ps) line.data = true := by
    cases h : startsWithL (c :: ps) line.data
    · exact absurd h hx
    · rfl
  obtain ⟨tl, htl, _⟩ := startsWithL_elim hx'
  have hdata := jsTrim_of_head htl hc
  rw [hb] at hdata
  exact List.noConfusion hdata

theorem flushList_eq : MarkdownView.flushList = ExportHtml.flushList := rfl

theorem flushTable_congr (tbuf : List String) (h : tbuf.length ≠ 1) :
    MarkdownView.flushTable tbuf = ExportHtml.flushTable tbuf := by
  match tbuf with
  | [] => rfl
  | [t] => exact absurd rfl h
  | a :: b :: r => rfl

theorem mv_go_table (lbuf tbuf : List String) (line : String) (rest : List String)
    (h : jsStartsWith (jsTrim line) "|" = true) :
    MarkdownView.go lbuf tbuf (line :: rest) =
      MarkdownView.flushList lbuf ++ MarkdownView.go [] (tbuf ++ [jsTrim line]) rest := by
  simp only [MarkdownView.go, h, if_true]

theorem ex_go_table (lbuf tbuf : List String) (line : String) (rest : List String)
    (h : jsStartsWith (jsTrim line) "|" = true) :
    ExportHtml.go lbuf tbuf (line :: rest) =
      ExportHtml.flushList lbuf ++ ExportHtml.go [] (tbuf ++ [jsTrim line]) rest := by
  simp only [ExportHtml.go, h, if_true]

theorem mv_go_nontable (lbuf tbuf : List String) (line : String) (rest : List String)
    (h : jsStartsWith (jsTrim line) "|" = false) :
    MarkdownView.go lbuf tbuf (line :: rest) =
      MarkdownView.flushTable tbuf ++
        ((MarkdownView.lineStep lbuf line).1 ++
          MarkdownView.go (MarkdownView.lineStep lbuf line).2 [] rest) := by
  simp only [MarkdownView.go, h, Bool.false_eq_true, if_false]

theorem ex_go_nontable (lbuf tbuf : List String) (line : String) (rest : List String)
    (h : jsStartsWith (jsTrim line) "|" = false) :
    ExportHtml.go lbuf tbuf (line :: rest) =
      ExportHtml.flushTable tbuf ++
        ((ExportHtml.lineStep lbuf line).1 ++
          ExportHtml.go (ExportHtml.lineStep lbuf line).2 [] rest) := by
  simp only [ExportHtml.go, h, Bool.false_eq_true, if_false]

theorem ex_lineStep_blank {line : String} (hb : jsTrim line = "")
    (lbuf : List String) : ExportHtml.lineStep lbuf line = ([], lbuf) := by
  have h1 : jsStartsWith (jsTrim line) "![" = false := by rw [hb]; rfl
  have h2 : jsStartsWith line "# " = false :=
    startsWith_false_of_blank hb _ (by decide)
  have h3 : jsStartsWith line "## " = false :=
    startsWith_false_of_blank hb _ (by decide)
  have h4 : jsStartsWith line "### " = false :=
    startsWith_false_of_blank hb _ (by decide)
  have h5 : jsStartsWith (jsTrim line) "- " = false := by rw [hb]; rfl
  have h6 : jsStartsWith (jsTrim line) "* " = false := by rw [hb]; rfl
  have h7 : (jsTrim line).data.length = 0 := by rw [hb]; rfl
  simp only [ExportHtml.lineStep, h1, h2, h3, h4, h5, h6, h7, Bool.false_eq_true,
    if_false, Bool.or_self, gt_iff_lt, lt_irrefl]

theorem mv_lineStep_blank {line : String} (hb : jsTrim line = "")
    (lbuf : List String) :
    MarkdownView.lineStep lbuf line = (MarkdownView.flushList lbuf, []) := by
  have h1 : jsStartsWith (jsTrim line) "![" = false := by rw [hb]; rfl
  have h2 : jsStartsWith line "# " = false :=
    startsWith_false_of_blank hb _ (by decide)
  have h3 : jsStartsWith line "## " = false :=
    startsWith_false_of_blank hb _ (by decide)
  have h4 : jsStartsWith line "### " = false :=
    startsWith_false_of_blank hb _ (by decide)
  have h5 : jsStartsWith (jsTrim line) "- " = false := by rw [hb]; rfl
  have h6 : jsStartsWith (jsTrim line) "* " = false := by rw [hb]; rfl
  simp only [MarkdownView.lineStep, MarkdownView.cascade, h1, h2, h3, h4, h5, h6, hb,
    Bool.false_eq_true, if_false, Bool.or_self, ne_eq, not_true_eq_false]
  rfl

theorem ex_lineStep_shift (lbuf : List String) (line : String)
    (hni : isItemLineB line = false) (hnb : ¬ jsTrim line = "") :
    ExportHtml.lineStep lbuf line =
      (ExportHtml.flushList lbuf ++ (ExportHtml.lineStep [] line).1,
        (ExportHtml.lineStep [] line).2) := by
  have hlen : 0 < (jsTrim line).data.length := by
    cases hdata : (jsTrim line).data with
    | nil => exact absurd ((strEq_empty_iff _).mpr hdata) hnb
    | cons c cs => simp
  have hni' : (jsStartsWith (jsTrim line) "- " || jsStartsWith (jsTrim line) "* ")
      = false := hni
  unfold ExportHtml.lineStep
  by_cases himgL : jsStartsWith (jsTrim line) "![" = true
  · simp only [himgL, if_true]
    cases hm : imageMatch (jsTrim line) with
    | some r =>
      obtain ⟨alt, url⟩ := r
      simp [ExportHtml.flushList]
    | none => simp [ExportHtml.flushList]
  · have himgL' : jsStartsWith (jsTrim line) "![" = false := by simpa using himgL
    simp only [himgL', Bool.false_eq_true, if_false]
    by_cases hh1 : jsStartsWith line "# " = true
    · simp [hh1, ExportHtml.flushList]
    · have hh1' : jsStartsWith line "# " = false := by simpa using hh1
      simp only [hh1', Bool.false_eq_true, if_false]
      by_cases hh2 : jsStartsWith line "## " = true
      · simp [hh2, ExportHtml.flushList]
      · have hh2' : jsStartsWith line "## " = false := by simpa using hh2
        simp only [hh2', Bool.false_eq_true, if_false]
        by_cases hh3 : jsStartsWith line "### " = true
        · simp [hh3, ExportHtml.flushList]
        · have hh3' : jsStartsWith line "### " = false := by simpa using hh3
          simp only [hh3', Bool.false_eq_true, if_false, hni', hlen, gt_iff_lt,
            if_true, ExportHtml.flushList]
          simp

theorem listRunsOk_two_weaken :
    ∀ ls, listRunsOk ls 2 = true → listRunsOk ls 0 = true := by
  intro ls
  induction ls with
  | nil => intro _; rfl
  | cons l r ih =>
    intro h
    by_cases hb : jsTrim l = ""
    · simp only [listRunsOk, hb, if_true, if_pos] at h ⊢
      simp only [show ((2 : Nat) == 0) = false from rfl, Bool.false_eq_true,
        if_false] at h
      simp only [show ((0 : Nat) == 0) = true from rfl, if_true]
      exact ih h
    · by_cases hi : isItemLineB l = true
      · simp only [listRunsOk, hb, if_neg hb, hi, if_true] at h
        simp only [show ((2 : Nat) != 2) = false from rfl, Bool.false_and] at h
        exact absurd h (by simp)
      · have hi' : isItemLineB l = false := by simpa using hi
        simp only [listRunsOk, if_neg hb, hi', Bool.false_eq_true, if_false] at h ⊢
        exact h

theorem flushSafe_of_listRunsOk_two :
    ∀ ls, listRunsOk ls 2 = true → flushSafe ls = true := by
  intro ls
  induction ls with
  | nil => intro _; rfl
  | cons l r ih =>
    intro h
    by_cases hb : jsTrim l = ""
    · simp only [listRunsOk, hb, if_true, if_pos] at h
      simp only [show ((2 : Nat) == 0) = false from rfl, Bool.false_eq_true,
        if_false] at h
      simp only [flushSafe, hb, if_pos]
      exact ih h
    · by_cases hi : isItemLineB l = true
      · simp only [listRunsOk, if_neg hb, hi, if_true] at h
        simp only [show ((2 : Nat) != 2) = false from rfl, Bool.false_and] at h
        exact absurd h (by simp)
      · have hi' : isItemLineB l = false := by simpa using hi
        simp only [flushSafe, if_neg hb, hi']
        rfl

theorem exportGo_flush :
    ∀ (rest lbuf : List String), flushSafe rest = true →
      ExportHtml.go lbuf [] rest =
        ExportHtml.flushList lbuf ++ ExportHtml.go [] [] rest := by
  intro rest
  induction rest with
  | nil =>
    intro lbuf _
    show ExportHtml.flushList lbuf ++ ExportHtml.flushTable [] =
      ExportHtml.flushList lbuf ++
        (ExportHtml.flushList [] ++ ExportHtml.flushTable [])
    rfl
  | cons line r ih =>
    intro lbuf h
    by_cases htab : jsStartsWith (jsTrim line) "|" = true
    · rw [ex_go_table lbuf [] line r htab, ex_go_table [] [] line r htab]
      rfl
    · have htabf : jsStartsWith (jsTrim line) "|" = false := by simpa using htab
      rw [ex_go_nontable lbuf [] line r htabf, ex_go_nontable [] [] line r htabf]
      by_cases hblank : jsTrim line = ""
      · rw [ex_lineStep_blank hblank lbuf, ex_lineStep_blank hblank []]
        have hsafe : flushSafe r = true := by
          simpa only [flushSafe, hblank, if_pos] using h
        simp only [ExportHtml.flushTable, List.nil_append]
        exact ih lbuf hsafe
      · have hni : isItemLineB line = false := by
          have := h
          simp only [flushSafe, if_neg hblank, Bool.not_eq_true'] at this
          exact this
        rw [ex_lineStep_shift lbuf line hni hblank]
        simp only [ExportHtml.flushTable, List.nil_append, List.append_assoc]

theorem go_parity :
    ∀ (lines lbuf tbuf : List String),
      (lbuf = [] ∨ tbuf = []) →
      imageLinesOk lines = true →
      tableRunsOk lines tbuf.length = true →
      listRunsOk lines (if lbuf.isEmpty then 0 else 1) = true →
      MarkdownView.go lbuf tbuf lines = ExportHtml.go lbuf tbuf lines := by
  intro lines
  induction lines with
  | nil =>
    intro lbuf tbuf _ _ htbl _
    have hlen1 : tbuf.length ≠ 1 := by
      simpa only [tableRunsOk, bne_iff_ne, ne_eq] using htbl
    show MarkdownView.flushList lbuf ++ MarkdownView.flushTable tbuf =
      ExportHtml.flushList lbuf ++ ExportHtml.flushTable tbuf
    rw [flushList_eq, flushTable_congr tbuf hlen1]
  | cons line rest ih =>
    intro lbuf tbuf hex himg htbl hlst
    have himg' := himg
    simp only [imageLinesOk, List.all_cons, Bool.and_eq_true] at himg'
    obtain ⟨himgHead, himgRest'⟩ := himg'
    have himgRest : imageLinesOk rest = true := himgRest'
    by_cases htab : jsStartsWith (jsTrim line) "|" = true
    · -- a table row accumulates on both sides
      obtain ⟨tl, htl⟩ := startsWithL_one_elim (p := '|') (l := (jsTrim line).data) htab
      have hTne := trim_ne_empty_of_head htl
      have hIt := item_false_of_head htl (by decide) (by decide)
      rw [mv_go_table _ _ _ _ htab, ex_go_table _ _ _ _ htab, flushList_eq]
      congr 1
      apply ih
      · exact Or.inl rfl
      · exact himgRest
      · have htabB : isTableLineB line = true := htab
        have htbl' := htbl
        simp only [tableRunsOk, htabB, if_true] at htbl'
        simpa [List.length_append] using htbl'
      · simp only [List.isEmpty_nil, if_true]
        have hlst' := hlst
        simp only [listRunsOk, if_neg hTne, hIt, Bool.false_eq_true, if_false] at hlst'
        exact hlst'
    · have htabf : jsStartsWith (jsTrim line) "|" = false := by simpa using htab
      have htabB : isTableLineB line = false := htabf
      have htbl' := htbl
      simp only [tableRunsOk, htabB, Bool.false_eq_true, if_false,
        Bool.and_eq_true, bne_iff_ne, ne_eq] at htbl'
      obtain ⟨hlen1, htblRest⟩ := htbl'
      rw [mv_go_nontable _ _ _ _ htabf, ex_go_nontable _ _ _ _ htabf,
        flushTable_congr tbuf hlen1]
      congr 1
      by_cases himgL : jsStartsWith (jsTrim line) "![" = true
      · -- image line; the side condition forces a pattern match
        have hsome : (imageMatch (jsTrim line)).isSome = true := by
          simpa [himgL] using himgHead
        obtain ⟨pr, hm⟩ := Option.isSome_iff_exists.mp hsome
        obtain ⟨alt, url⟩ := pr
        obtain ⟨tl, htl, _⟩ :=
          @startsWithL_elim '!' ['['] (jsTrim line).data himgL
        have hTne := trim_ne_empty_of_head htl
        have hIt := item_false_of_head htl (by decide) (by decide)
        have hgo : MarkdownView.go [] [] rest = ExportHtml.go [] [] rest := by
          apply ih _ [] (Or.inl rfl) himgRest htblRest
          simp only [List.isEmpty_nil, if_true]
          have hlst' := hlst
          simp only [listRunsOk, if_neg hTne, hIt, Bool.false_eq_true, if_false] at hlst'
          exact hlst'
        simp only [MarkdownView.lineStep, ExportHtml.lineStep, himgL, if_true, hm]
        rw [hgo, flushList_eq]
      · have himgL' : jsStartsWith (jsTrim line) "![" = false := by simpa using himgL
        by_cases hh1 : jsStartsWith line "# " = true
        · obtain ⟨tl0, htl0, _⟩ := startsWithL_elim (p := '#') (l := line.data) hh1
          have hdata := jsTrim_of_head htl0 (by decide)
          have hTne := trim_ne_empty_of_head hdata
          have hIt := item_false_of_head hdata (by decide) (by decide)
          have hgo : MarkdownView.go [] [] rest = ExportHtml.go [] [] rest := by
            apply ih _ [] (Or.inl rfl) himgRest htblRest
            simp only [List.isEmpty_nil, if_true]
            have hlst' := hlst
            simp only [listRunsOk, if_neg hTne, hIt, Bool.false_eq_true, if_false] at hlst'
            exact hlst'
          simp only [MarkdownView.lineStep, MarkdownView.cascade, ExportHtml.lineStep,
            himgL', hh1, if_true, Bool.false_eq_true, if_false]
          rw [hgo, flushList_eq]
        · have hh1' : jsStartsWith line "# " = false := by simpa using hh1
          by_cases hh2 : jsStartsWith line "## " = true
          · obtain ⟨tl0, htl0, _⟩ := startsWithL_elim (p := '#') (l := line.data) hh2
            have hdata := jsTrim_of_head htl0 (by decide)
            have hTne := trim_ne_empty_of_head hdata
            have hIt := item_false_of_head hdata (by decide) (by decide)
            have hgo : MarkdownView.go [] [] rest = ExportHtml.go [] [] rest := by
              apply ih _ [] (Or.inl rfl) himgRest htblRest
              simp only [List.isEmpty_nil, if_true]
              have hlst' := hlst
              simp only [listRunsOk, if_neg hTne, hIt, Bool.false_eq_true, if_false]
                at hlst'
              exact hlst'
            simp only [MarkdownView.lineStep, MarkdownView.cascade, ExportHtml.lineStep,
              himgL', hh1', hh2, if_true, Bool.false_eq_true, if_false]
            rw [hgo, flushList_eq]
          · have hh2' : jsStartsWith line "## " = false := by simpa using hh2
            by_cases hh3 : jsStartsWith line "### " = true
            · obtain ⟨tl0, htl0, _⟩ := startsWithL_elim (p := '#') (l := line.data) hh3
              have hdata := jsTrim_of_head htl0 (by decide)
              have hTne := trim_ne_empty_of_head hdata
              have hIt := item_false_of_head hdata (by decide) (by decide)
              have hgo : MarkdownView.go [] [] rest = ExportHtml.go [] [] rest := by
                apply ih _ [] (Or.inl rfl) himgRest htblRest
                simp only [List.isEmpty_nil, if_true]
                have hlst' := hlst
                simp only [listRunsOk, if_neg hTne, hIt, Bool.false_eq_true, if_false]
                  at hlst'
                exact hlst'
              simp only [MarkdownView.lineStep, MarkdownView.cascade,
                ExportHtml.lineStep, himgL', hh1', hh2', hh3, if_true,
                Bool.false_eq_true, if_false]
              rw [hgo, flushList_eq]
            · have hh3' : jsStartsWith line "### " = false := by simpa using hh3
              by_cases hit : (jsStartsWith (jsTrim line) "- " ||
                  jsStartsWith (jsTrim line) "* ") = true
              · -- list item: both push onto the open list buffer
                have hitB : isItemLineB line = true := hit
                have hor : jsStartsWith (jsTrim line) "- " = true ∨
                    jsStartsWith (jsTrim line) "* " = true := by
                  simpa using hit
                have hTne : ¬ jsTrim line = "" := by
                  rcases hor with h | h
                  · obtain ⟨tl2, htl2, _⟩ := @startsWithL_elim '-' [' '] (jsTrim line).data h
                    exact trim_ne_empty_of_head htl2
                  · obtain ⟨tl2, htl2, _⟩ := @startsWithL_elim '*' [' '] (jsTrim line).data h
                    exact trim_ne_empty_of_head htl2
                have hgo : MarkdownView.go (lbuf ++ [jsSubstringFrom (jsTrim line) 2])
                    [] rest =
                    ExportHtml.go (lbuf ++ [jsSubstringFrom (jsTrim line) 2]) [] rest := by
                  apply ih _ [] (Or.inr rfl) himgRest htblRest
                  have happ : (lbuf ++ [jsSubstringFrom (jsTrim line) 2]).isEmpty
                      = false := by simp [List.isEmpty_iff]
                  rw [happ]
                  simp only [Bool.false_eq_true, if_false]
                  have hlst' := hlst
                  simp only [listRunsOk, if_neg hTne, hitB, if_true,
                    Bool.and_eq_true] at hlst'
                  exact hlst'.2
                simp only [MarkdownView.lineStep, MarkdownView.cascade,
                  ExportHtml.lineStep, himgL', hh1', hh2', hh3', hit, if_true,
                  Bool.false_eq_true, if_false]
                rw [hgo]
              · have hit' : (jsStartsWith (jsTrim line) "- " ||
                    jsStartsWith (jsTrim line) "* ") = false := by simpa using hit
                have hitB : isItemLineB line = false := hit'
                by_cases hblank : jsTrim line = ""
                · -- blank line: the preview flushes the list, the export
                  -- leaves it open until the next non-blank line
                  rw [mv_lineStep_blank hblank lbuf, ex_lineStep_blank hblank lbuf]
                  by_cases hbuf : lbuf.isEmpty = true
                  · have hbufE : lbuf = [] := by simpa [List.isEmpty_iff] using hbuf
                    subst hbufE
                    have hgo : MarkdownView.go [] [] rest = ExportHtml.go [] [] rest := by
                      apply ih _ [] (Or.inl rfl) himgRest htblRest
                      simp only [List.isEmpty_nil, if_true]
                      have hlst' := hlst
                      simp only [List.isEmpty_nil, if_true, listRunsOk, hblank,
                        if_pos] at hlst'
                      simpa using hlst'
                    simp only [MarkdownView.flushList, List.isEmpty_nil, if_true,
                      List.nil_append]
                    exact hgo
                  · have hbufF : lbuf.isEmpty = false := by simpa using hbuf
                    have hlst2 : listRunsOk rest 2 = true := by
                      have hlst' := hlst
                      simp only [hbufF, Bool.false_eq_true, if_false, listRunsOk,
                        hblank, if_pos] at hlst'
                      simpa using hlst'
                    rw [exportGo_flush rest lbuf
                      (flushSafe_of_listRunsOk_two rest hlst2)]
                    have hgo : MarkdownView.go [] [] rest = ExportHtml.go [] [] rest := by
                      apply ih _ [] (Or.inl rfl) himgRest htblRest
                      simp only [List.isEmpty_nil, if_true]
                      exact listRunsOk_two_weaken rest hlst2
                    show MarkdownView.flushList lbuf ++ MarkdownView.go [] [] rest =
                      [] ++ (ExportHtml.flushList lbuf ++ ExportHtml.go [] [] rest)
                    rw [hgo, flushList_eq, List.nil_append]
                · -- plain paragraph line
                  have hnb : ¬ jsTrim line = "" := hblank
                  have hlen : 0 < (jsTrim line).data.length := by
                    cases hdata : (jsTrim line).data with
                    | nil => exact absurd ((strEq_empty_iff _).mpr hdata) hnb
                    | cons c cs => simp
                  have hgo : MarkdownView.go [] [] rest = ExportHtml.go [] [] rest := by
                    apply ih _ [] (Or.inl rfl) himgRest htblRest
                    simp only [List.isEmpty_nil, if_true]
                    have hlst' := hlst
                    simp only [listRunsOk, if_neg hnb, hitB, Bool.false_eq_true,
                      if_false] at hlst'
                    exact hlst'
                  simp only [MarkdownView.lineStep, MarkdownView.cascade,
                    ExportHtml.lineStep, himgL', hh1', hh2', hh3', hit',
                    Bool.false_eq_true, if_false, ne_eq, hnb, not_false_eq_true,
                    if_true, gt_iff_lt, hlen]
                  rw [hgo, flushList_eq]

/-- C2 counterexample: for the source text consisting of the single
line `![foo` — which enters the image branch but fails the image
pattern — the preview renders a paragraph block (it falls through the
failed match) while the export emits nothing (its early return sits
outside the match check), so the two block sequences differ. -/
theorem c2_counterexample :
    MarkdownView.run "![foo" ≠ ExportHtml.generateHtmlContent "![foo" := by
  decide

/-- C2 (amended): the preview renderer and the HTML export classify
lines into identical block sequences (same tables with the same cells,
same list items, same images, same headings, same paragraphs) for
every source text in which (a) every line whose trimmed form starts
with `![` matches the image pattern, (b) no maximal run of consecutive
table lines has length exactly 1, and (c) no blank line separates two
list items.  Outside these conditions parity fails: an unmatched
image-like line is a paragraph in the preview but dropped by the
export, a lone table line produces an empty table element only in the
export, and a blank line inside a list splits the list only in the
preview. -/
theorem c2_parity (content : String)
    (h1 : imageLinesOk (jsSplitChar '\n' content) = true)
    (h2 : tableRunsOk (jsSplitChar '\n' content) 0 = true)
    (h3 : listRunsOk (jsSplitChar '\n' content) 0 = true) :
    MarkdownView.run content = ExportHtml.generateHtmlContent content := by
  unfold MarkdownView.run ExportHtml.generateHtmlContent
  by_cases hc : content = ""
  · subst hc
    decide
  · rw [if_neg hc]
    exact go_parity (jsSplitChar '\n' content) [] [] (Or.inl rfl) h1 h2 h3

/-- C2 witness: a text exercising headings, bold, lists, a table and
an image, on which preview and export agree. -/
theorem c2_parity_witness :
    imageLinesOk (jsSplitChar '\n'
      "# T\nhello **w**\n- item one\n- **item two**\n| A | B |\n|---|---|\n| 1 | 2 |\n![a cat](http://x/y.png)") = true ∧
    tableRunsOk (jsSplitChar '\n'
      "# T\nhello **w**\n- item one\n- **item two**\n| A | B |\n|---|---|\n| 1 | 2 |\n![a cat](http://x/y.png)") 0 = true ∧
    listRunsOk (jsSplitChar '\n'
      "# T\nhello **w**\n- item one\n- **item two**\n| A | B |\n|---|---|\n| 1 | 2 |\n![a cat](http://x/y.png)") 0 = true ∧
    MarkdownView.run
      "# T\nhello **w**\n- item one\n- **item two**\n| A | B |\n|---|---|\n| 1 | 2 |\n![a cat](http://x/y.png)" =
    ExportHtml.generateHtmlContent
      "# T\nhello **w**\n- item one\n- **item two**\n| A | B |\n|---|---|\n| 1 | 2 |\n![a cat](http://x/y.png)" :=
  ⟨by decide, by decide, by decide,
    c2_parity _ (by decide) (by decide) (by decide)⟩

/-- C10 witness. -/
theorem c10_currentImageUrl_witness :
    jsIndex ["x", "y"] 1 = some "y" ∧ ("y" : String) ≠ "" ∧
    currentImageUrl ⟨["x", "y"], 1⟩ = some "y" ∧
    currentImageUrl ⟨["x", "y"], -1⟩ = none :=
  ⟨by decide, by decide,
    (c10_currentImageUrl ["x", "y"] 1).1 "y" (by decide) (by decide),
    (c10_currentImageUrl ["x", "y"] (-1)).2.1 (by decide)⟩

end Niikaa
